import Mathlib

/-!
Shallow embedding of the session multiplexer of `rwshell` (src/server.rs),
for checking the natural-language specification against the code.

Bytes are modelled as `Nat` with an explicit `< 256` bound where it matters.
Byte strings are `List Nat`; base64 text is `List Char`.

The embedded pieces, with their sources in `src/server.rs`:
* the base64 codec used by the `base64` crate's `general_purpose::STANDARD`
  engine (RFC 4648, padded, canonical);
* UTF-8 validity as checked by Rust's `String::from_utf8`;
* `is_valid_terminal_size` (lines 77-93);
* `process_resize_request` (96-136), `apply_resize` (139-178),
  the pending-resize processor tick (181-233);
* the PTY reader's replay-buffer step (404-433);
* the local terminal size poller step (477-551);
* `handle_socket`: the attach handshake and replay drain (767-899),
  the outbound `sender_task` (902-956), the inbound `receiver_task`
  dispatch (967-1037).
-/

/-- Base64 alphabet, sextet to character (RFC 4648 standard alphabet). -/
def b64Char (s : Nat) : Char :=
  if s < 26 then Char.ofNat (65 + s)
  else if s < 52 then Char.ofNat (71 + s)
  else if s < 62 then Char.ofNat (s - 4)
  else if s = 62 then '+'
  else '/'

/-- Base64 alphabet, character to sextet; `none` for characters outside the
alphabet (including the pad `=`). -/
def b64CharVal (ch : Char) : Option Nat :=
  let v := ch.toNat
  if 65 ≤ v ∧ v ≤ 90 then some (v - 65)
  else if 97 ≤ v ∧ v ≤ 122 then some (v - 71)
  else if 48 ≤ v ∧ v ≤ 57 then some (v + 4)
  else if v = 43 then some 62
  else if v = 47 then some 63
  else none

/-- Base64 encoding with padding, as produced by the `base64` crate's
`general_purpose::STANDARD.encode`: three input bytes become four characters;
a final group of one or two bytes is padded with `==` or `=`. -/
def b64Encode : List Nat → List Char
  | [] => []
  | [a] => [b64Char (a / 4), b64Char (a % 4 * 16), '=', '=']
  | [a, b] => [b64Char (a / 4), b64Char (a % 4 * 16 + b / 16), b64Char (b % 16 * 4), '=']
  | a :: b :: c :: rest =>
    b64Char (a / 4) :: b64Char (a % 4 * 16 + b / 16) ::
    b64Char (b % 16 * 4 + c / 64) :: b64Char (c % 64) :: b64Encode rest

/-- Base64 decoding, as performed by `general_purpose::STANDARD.decode`:
the input length must be a multiple of four, padding is canonical and only
allowed in the last group, and non-zero trailing bits are rejected. -/
def b64Decode : List Char → Option (List Nat)
  | [] => some []
  | c0 :: c1 :: c2 :: c3 :: rest =>
    if rest.isEmpty ∧ c2 = '=' ∧ c3 = '=' then
      match b64CharVal c0, b64CharVal c1 with
      | some s0, some s1 =>
        if s1 % 16 = 0 then some [s0 * 4 + s1 / 16] else none
      | _, _ => none
    else if rest.isEmpty ∧ c3 = '=' then
      match b64CharVal c0, b64CharVal c1, b64CharVal c2 with
      | some s0, some s1, some s2 =>
        if s2 % 4 = 0 then some [s0 * 4 + s1 / 16, s1 % 16 * 16 + s2 / 4] else none
      | _, _, _ => none
    else
      match b64CharVal c0, b64CharVal c1, b64CharVal c2, b64CharVal c3, b64Decode rest with
      | some s0, some s1, some s2, some s3, some bs =>
        some ([s0 * 4 + s1 / 16, s1 % 16 * 16 + s2 / 4, s2 % 4 * 64 + s3] ++ bs)
      | _, _, _, _, _ => none
  | _ => none

theorem b64CharVal_b64Char : ∀ s, s < 64 → b64CharVal (b64Char s) = some s := by decide

theorem b64Char_ne_pad : ∀ s, s < 64 → b64Char s ≠ '=' := by decide

/-- Round trip: decoding an encoded byte list gives the bytes back. -/
theorem b64_roundtrip : ∀ l : List Nat, (∀ x ∈ l, x < 256) →
    b64Decode (b64Encode l) = some l := by
  intro l
  induction l using b64Encode.induct with
  | case1 =>
    intro _
    simp [b64Encode, b64Decode]
  | case2 a =>
    intro h
    have ha : a < 256 := h a (by simp)
    simp only [b64Encode, b64Decode, List.isEmpty_nil, true_and, and_self, if_true,
      b64CharVal_b64Char (a / 4) (by omega : a / 4 < 64),
      b64CharVal_b64Char (a % 4 * 16) (by omega : a % 4 * 16 < 64)]
    rw [if_pos (by omega : a % 4 * 16 % 16 = 0)]
    congr 1
    congr 1
    omega
  | case3 a b =>
    intro h
    have ha : a < 256 := h a (by simp)
    have hb : b < 256 := h b (by simp)
    simp only [b64Encode, b64Decode, List.isEmpty_nil, true_and,
      b64CharVal_b64Char (a / 4) (by omega : a / 4 < 64),
      b64CharVal_b64Char (a % 4 * 16 + b / 16) (by omega : a % 4 * 16 + b / 16 < 64),
      b64CharVal_b64Char (b % 16 * 4) (by omega : b % 16 * 4 < 64)]
    rw [if_neg (fun hcon => b64Char_ne_pad (b % 16 * 4) (by omega) hcon.1)]
    simp only [if_true]
    rw [if_pos (by omega : b % 16 * 4 % 4 = 0)]
    congr 1
    refine List.cons_eq_cons.mpr ⟨by omega, ?_⟩
    refine List.cons_eq_cons.mpr ⟨by omega, rfl⟩
  | case4 a b c rest ih =>
    intro h
    have ha : a < 256 := h a (by simp)
    have hb : b < 256 := h b (by simp)
    have hc : c < 256 := h c (by simp)
    have hrest : ∀ x ∈ rest, x < 256 := by
      intro x hx; exact h x (by simp [hx])
    simp only [b64Encode, b64Decode,
      b64CharVal_b64Char (a / 4) (by omega : a / 4 < 64),
      b64CharVal_b64Char (a % 4 * 16 + b / 16) (by omega : a % 4 * 16 + b / 16 < 64),
      b64CharVal_b64Char (b % 16 * 4 + c / 64) (by omega : b % 16 * 4 + c / 64 < 64),
      b64CharVal_b64Char (c % 64) (by omega : c % 64 < 64),
      ih hrest]
    rw [if_neg (fun hcon => b64Char_ne_pad (b % 16 * 4 + c / 64) (by omega) hcon.2.1)]
    rw [if_neg (fun hcon => b64Char_ne_pad (c % 64) (by omega) hcon.2)]
    congr 1
    simp only [List.cons_append, List.nil_append]
    refine List.cons_eq_cons.mpr ⟨by omega, ?_⟩
    refine List.cons_eq_cons.mpr ⟨by omega, ?_⟩
    refine List.cons_eq_cons.mpr ⟨by omega, rfl⟩

/-- Is `b` a UTF-8 continuation byte (`0x80..=0xBF`)? -/
def isCont (b : Nat) : Bool := decide (128 ≤ b ∧ b ≤ 191)

/-- UTF-8 validity, fuelled by the length of the list. Mirrors the byte-level
well-formedness that Rust's `String::from_utf8` checks (RFC 3629 table):
ASCII, two-byte leads `C2..DF`, three-byte leads `E0/E1..EC/ED/EE..EF` with
their restricted first continuations, four-byte leads `F0/F1..F3/F4`. -/
def utf8Fuel : Nat → List Nat → Bool
  | _, [] => true
  | 0, _ :: _ => false
  | fuel + 1, b :: rest =>
    if b ≤ 127 then utf8Fuel fuel rest
    else if 194 ≤ b ∧ b ≤ 223 then
      match rest with
      | c1 :: t => isCont c1 && utf8Fuel fuel t
      | [] => false
    else if b = 224 then
      match rest with
      | c1 :: c2 :: t => decide (160 ≤ c1 ∧ c1 ≤ 191) && isCont c2 && utf8Fuel fuel t
      | _ => false
    else if 225 ≤ b ∧ b ≤ 236 then
      match rest with
      | c1 :: c2 :: t => isCont c1 && isCont c2 && utf8Fuel fuel t
      | _ => false
    else if b = 237 then
      match rest with
      | c1 :: c2 :: t => decide (128 ≤ c1 ∧ c1 ≤ 159) && isCont c2 && utf8Fuel fuel t
      | _ => false
    else if 238 ≤ b ∧ b ≤ 239 then
      match rest with
      | c1 :: c2 :: t => isCont c1 && isCont c2 && utf8Fuel fuel t
      | _ => false
    else if b = 240 then
      match rest with
      | c1 :: c2 :: c3 :: t =>
        decide (144 ≤ c1 ∧ c1 ≤ 191) && isCont c2 && isCont c3 && utf8Fuel fuel t
      | _ => false
    else if 241 ≤ b ∧ b ≤ 243 then
      match rest with
      | c1 :: c2 :: c3 :: t => isCont c1 && isCont c2 && isCont c3 && utf8Fuel fuel t
      | _ => false
    else if b = 244 then
      match rest with
      | c1 :: c2 :: c3 :: t =>
        decide (128 ≤ c1 ∧ c1 ≤ 143) && isCont c2 && isCont c3 && utf8Fuel fuel t
      | _ => false
    else false

/-- Does `String::from_utf8` succeed on these bytes? -/
def isValidUtf8 (l : List Nat) : Bool := utf8Fuel l.length l

/-- The bytes of the ASCII text `WINSIZE:`, the in-band marker used on the
broadcast channel (server.rs lines 177, 543, 906). -/
def winsizeMarker : List Nat := [87, 73, 78, 83, 73, 90, 69, 58]

/-- A frame sent from the server to a websocket client, at the level the
claims speak about. `write` carries the `Size` field and the base64 `Data`
field of the inner `WriteMessage`; `controlText` is a pre-serialized message
forwarded verbatim (the `WINSIZE:`-stripped text of sender_task). -/
inductive OutFrame where
  | winSize (cols rows : Nat)
  | readOnly (flag : Bool)
  | headless (flag : Bool)
  | write (size : Nat) (data : List Char)
  | controlText (payload : List Nat)
deriving DecidableEq

/-- The outbound `sender_task` body (server.rs 902-956) for one broadcast
item: if the chunk is valid UTF-8 and, decoded, starts with `WINSIZE:`
(`String::from_utf8(data)` is `Ok` and `strip` of the marker succeeds; for
valid UTF-8 the decoded string starts with the ASCII marker exactly when the
byte list starts with the marker bytes), the remainder is forwarded verbatim
as a text frame; otherwise the chunk is wrapped in a `Write` frame with
`Size` its length and `Data` its base64 encoding. -/
def forwardChunk (data : List Nat) : OutFrame :=
  if isValidUtf8 data && winsizeMarker.isPrefixOf data then
    OutFrame.controlText (data.drop winsizeMarker.length)
  else
    OutFrame.write data.length (b64Encode data)

/-- UTF-8 bytes of an ASCII string (for the JSON texts built below every
character is ASCII, so code points and bytes coincide). -/
def strBytes (s : String) : List Nat := s.toList.map Char.toNat

/-- The inner JSON of a `WinSizeMessage`, as serde serializes it:
`{"Cols":c,"Rows":r}` (fields in declaration order, server.rs 56-62). -/
def innerWinSizeJson (c r : Nat) : String :=
  "\x7b\"Cols\":" ++ Nat.repr c ++ ",\"Rows\":" ++ Nat.repr r ++ "\x7d"

/-- The envelope JSON of a `TtyMessage`: `{"Type":t,"Data":d}` with `d` the
base64 of the inner JSON (server.rs 40-46). -/
def envelopeJson (msgType dataB64 : String) : String :=
  "\x7b\"Type\":\"" ++ msgType ++ "\",\"Data\":\"" ++ dataB64 ++ "\"\x7d"

/-- The bytes published on the broadcast channel to announce a resize:
`format!("WINSIZE:{json_str}").into_bytes()` where `json_str` is the
serialized `TtyMessage` of type `WinSize` (server.rs 169-178, 528-543). -/
def winsizeAnnouncement (c r : Nat) : List Nat :=
  strBytes ("WINSIZE:" ++
    envelopeJson "WinSize" (b64Encode (strBytes (innerWinSizeJson c r))).asString)

/-- `is_valid_terminal_size` (server.rs 77-93): zero is rejected, then
`(10..=1000).contains(&cols) && (5..=1000).contains(&rows)`. -/
def is_valid_terminal_size (cols rows : Nat) : Bool :=
  if cols = 0 ∨ rows = 0 then false
  else decide (10 ≤ cols ∧ cols ≤ 1000) && decide (5 ≤ rows ∧ rows ≤ 1000)

/-- The mutable resize-related session state: `current_size`,
`last_resize_time` (milliseconds of a monotone clock) and `pending_resize`
(server.rs 32, 36, 37). -/
structure SessState where
  cur : Nat × Nat
  lastTime : Nat
  pending : Option (Nat × Nat)
deriving DecidableEq

/-- An observable side effect of one step of the embedded code, in the order
the code performs it: an update of `current_size`, a `resize` call on the PTY
master (with `ok = false` when the ioctl fails), a publication on the
broadcast channel, or a write to the PTY writer. -/
inductive Eff where
  | setCurrent (c r : Nat)
  | ptyResizeCall (c r : Nat) (ok : Bool)
  | publish (msg : List Nat)
  | ptyWrite (bytes : List Nat)
deriving DecidableEq

/-- The effect trace of `apply_resize` (server.rs 139-178): update the stored
size, call `resize` on the PTY master (logging but swallowing failure), then
broadcast the `WINSIZE:`-prefixed announcement. -/
def applyResizeEff (c r : Nat) (rok : Bool) : List Eff :=
  [Eff.setCurrent c r, Eff.ptyResizeCall c r rok,
   Eff.publish (winsizeAnnouncement c r)]

/-- `apply_resize` (server.rs 139-178) as a state transformer plus its effect
trace. `rok` tells whether the PTY `resize` ioctl succeeds; either way the
function proceeds. -/
def apply_resize (c r : Nat) (rok : Bool) (s : SessState) : SessState × List Eff :=
  ({ s with cur := (c, r) }, applyResizeEff c r rok)

/-- `process_resize_request` (server.rs 96-136): if at least 100 ms have
passed since `last_resize_time`, set the timestamp to now and apply
immediately (the pending slot is left as it is); otherwise overwrite the
pending slot with this request and do nothing else. -/
def process_resize_request (t c r : Nat) (rok : Bool) (s : SessState) :
    SessState × List Eff :=
  if 100 ≤ t - s.lastTime then
    apply_resize c r rok { s with lastTime := t }
  else
    ({ s with pending := some (c, r) }, [])

/-- One 50 ms tick of the pending-resize processor
(`start_pending_resize_processor`, server.rs 181-233): if a pending value
exists and 100 ms have passed, clear the slot, set the timestamp to now, and
apply the pending size. -/
def pending_resize_tick (t : Nat) (rok : Bool) (s : SessState) :
    SessState × List Eff :=
  match s.pending with
  | none => (s, [])
  | some (c, r) =>
    if 100 ≤ t - s.lastTime then
      apply_resize c r rok { s with pending := none, lastTime := t }
    else
      (s, [])

/-- An inbound client frame after envelope parsing (`TtyMessage` decoded,
inner message parsed): a `Write` with its `Size` field and base64 `Data`
text, a `WinSize` with cols and rows, or anything else (including frames
whose envelope or inner JSON failed to parse, which the code drops). -/
inductive InFrame where
  | write (size : Nat) (data : List Char)
  | winSize (cols rows : Nat)
  | other
deriving DecidableEq

/-- Result of dispatching one inbound frame in the receiver task: the updated
session state, the side effects in order, and whether the branch terminates
the connection (no branch of the source loop does). -/
structure DOut where
  state : SessState
  effs : List Eff
  closes : Bool
deriving DecidableEq

/-- The receiver task's dispatch on one inbound text frame (server.rs
967-1037). `Write`: dropped when the session is read-only, otherwise the
base64 payload is decoded and written to the PTY writer (the `Size` field is
never consulted); undecodable payloads are dropped. `WinSize`: handled only
in headless mode and only when the size is valid, via
`process_resize_request`; otherwise dropped. Anything else: dropped. -/
def dispatch (ro hl : Bool) (t : Nat) (rok : Bool) (s : SessState) :
    InFrame → DOut
  | InFrame.write _sz data =>
    if ro then ⟨s, [], false⟩
    else
      match b64Decode data with
      | some bytes => ⟨s, [Eff.ptyWrite bytes], false⟩
      | none => ⟨s, [], false⟩
  | InFrame.winSize c r =>
    if hl then
      if is_valid_terminal_size c r then
        let p := process_resize_request t c r rok s
        ⟨p.1, p.2, false⟩
      else ⟨s, [], false⟩
    else ⟨s, [], false⟩
  | InFrame.other => ⟨s, [], false⟩

/-- Whole-session state: the resize state plus the size poller's `last_size`
local (server.rs 482). -/
structure FullState where
  sess : SessState
  pollLast : Nat × Nat
deriving DecidableEq

/-- One 500 ms tick of the local terminal size poller (server.rs 477-551),
given the size `sz` read from the host terminal: on change, validate
(invalid sizes are skipped without updating `last_size`), then update the
stored size, resize the PTY, and broadcast the announcement. -/
def pollerStep (rok : Bool) (st : FullState) (sz : Nat × Nat) :
    FullState × List Eff :=
  if sz = st.pollLast then (st, [])
  else if is_valid_terminal_size sz.1 sz.2 then
    ({ sess := { st.sess with cur := sz }, pollLast := sz },
     [Eff.setCurrent sz.1 sz.2, Eff.ptyResizeCall sz.1 sz.2 rok,
      Eff.publish (winsizeAnnouncement sz.1 sz.2)])
  else (st, [])

/-- An event of the session: an inbound client frame at monotone time `t`, a
tick of the pending-resize processor at time `t`, or a poll of the host
terminal size. -/
inductive SEvent where
  | inbound (t : Nat) (f : InFrame)
  | tick (t : Nat)
  | poll (sz : Nat × Nat)
deriving DecidableEq

/-- One system step. The pending-resize processor runs only in headless mode
(server.rs 356-365); the size poller runs only in interactive mode
(server.rs 477). -/
def sysStep (ro hl : Bool) (rok : Bool) (st : FullState) :
    SEvent → FullState × List Eff
  | SEvent.inbound t f =>
    let d := dispatch ro hl t rok st.sess f
    ({ st with sess := d.state }, d.effs)
  | SEvent.tick t =>
    if hl then
      let p := pending_resize_tick t rok st.sess
      ({ st with sess := p.1 }, p.2)
    else (st, [])
  | SEvent.poll sz =>
    if hl then (st, []) else pollerStep rok st sz

/-- Run a list of events, collecting each event's effect list. -/
def runS (ro hl : Bool) (rok : Bool) (st : FullState) :
    List SEvent → FullState × List (SEvent × List Eff)
  | [] => (st, [])
  | e :: es =>
    let p := sysStep ro hl rok st e
    let q := runS ro hl rok p.1 es
    (q.1, (e, p.2) :: q.2)

/-- The timestamp carried by an event; polls carry none. -/
def seTime : SEvent → Option Nat
  | SEvent.inbound t _ => some t
  | SEvent.tick t => some t
  | SEvent.poll _ => none

/-- The timestamps of a trace, in order. -/
def seTimes (es : List SEvent) : List Nat := es.filterMap seTime

/-- The PTY resize calls of an effect list, stamped with time `t`. -/
def resizesAt (t : Nat) (effs : List Eff) : List (Nat × Nat × Nat) :=
  effs.filterMap fun e =>
    match e with
    | Eff.ptyResizeCall c r _ => some (t, c, r)
    | _ => none

/-- The client-initiated PTY resizes of a run: resize calls of inbound and
tick events (size-poller resizes are local, not client-initiated). -/
def clientApplies : List (SEvent × List Eff) → List (Nat × Nat × Nat)
  | [] => []
  | (SEvent.poll _, _) :: tr => clientApplies tr
  | (SEvent.inbound t _, effs) :: tr => resizesAt t effs ++ clientApplies tr
  | (SEvent.tick t, effs) :: tr => resizesAt t effs ++ clientApplies tr

/-- One step of the PTY reader when the broadcast has zero subscribers
(server.rs 422-432): append the chunk to `output_buffer`, then if the length
exceeds 1024 drain from the head so that exactly the last 1024 bytes are
kept. -/
def bufferStep (buf chunk : List Nat) : List Nat :=
  let b := buf ++ chunk
  if b.length > 1024 then b.drop (b.length - 1024) else b

/-- One iteration of the PTY reader (server.rs 404-441): with subscribers the
chunk is published on the broadcast channel; with none it is appended to the
replay buffer instead. Returns the new buffer and the published chunks. -/
def readerStep (hasSubs : Bool) (buf chunk : List Nat) :
    List Nat × List (List Nat) :=
  if hasSubs then (buf, [chunk]) else (bufferStep buf chunk, [])

/-- The replay buffer after the reader has consumed `chunks` with no
subscriber attached, starting from an empty buffer. -/
def bufferAfter (chunks : List (List Nat)) : List Nat :=
  chunks.foldl (fun b c => (readerStep false b c).1) []

/-- The parameters of an attach handshake: the session's current size and
flags read by `handle_socket`, and the replay buffer contents. -/
structure AttachInput where
  cols : Nat
  rows : Nat
  readonly : Bool
  headless : Bool
  buffer : List Nat
deriving DecidableEq

/-- An action of the attach handshake observable from outside: subscribing
to the broadcast channel, or a successfully delivered frame. -/
inductive ClientAct where
  | subscribe
  | send (f : OutFrame)
deriving DecidableEq

/-- The attach phase of `handle_socket` (server.rs 767-899). The connection
first subscribes to the broadcast channel (773), then sends `WinSize` with
the current size (776-804), `ReadOnly` (807-833), `Headless` (836-862), and,
if the replay buffer is non-empty, one `Write` with its whole contents
(864-899), clearing the buffer only after that send succeeds. `ok i` tells
whether the i-th send succeeds; the first failure aborts the handshake.
Returns the actions performed and the final replay buffer. -/
def attachActions (inp : AttachInput) (ok : Nat → Bool) :
    List ClientAct × List Nat :=
  let a0 := [ClientAct.subscribe]
  if !ok 0 then (a0, inp.buffer) else
  let a1 := a0 ++ [ClientAct.send (OutFrame.winSize inp.cols inp.rows)]
  if !ok 1 then (a1, inp.buffer) else
  let a2 := a1 ++ [ClientAct.send (OutFrame.readOnly inp.readonly)]
  if !ok 2 then (a2, inp.buffer) else
  let a3 := a2 ++ [ClientAct.send (OutFrame.headless inp.headless)]
  if inp.buffer.isEmpty then (a3, inp.buffer) else
  if !ok 3 then (a3, inp.buffer) else
  (a3 ++ [ClientAct.send (OutFrame.write inp.buffer.length (b64Encode inp.buffer))], [])

/-- What one attached client observes: the attach handshake actions followed
by the sender task's forwarding of each subsequently broadcast chunk. -/
def clientStream (inp : AttachInput) (ok : Nat → Bool)
    (live : List (List Nat)) : List ClientAct :=
  (attachActions inp ok).1 ++ live.map (fun ch => ClientAct.send (forwardChunk ch))

/-- The last-1024-bytes suffix of a list: what head-truncation keeps. -/
def suffix1024 (l : List Nat) : List Nat := l.drop (l.length - 1024)

theorem bufferStep_suffix (j c : List Nat) :
    bufferStep (suffix1024 j) c = suffix1024 (j ++ c) := by
  unfold bufferStep suffix1024
  by_cases h : 1024 < (List.drop (j.length - 1024) j ++ c).length
  · rw [if_pos h]
    rw [List.drop_append_eq_append_drop, List.drop_append_eq_append_drop, List.drop_drop]
    simp only [List.length_append, List.length_drop] at h ⊢
    have e1 : j.length - 1024 + (j.length - (j.length - 1024) + c.length - 1024) =
        j.length + c.length - 1024 := by omega
    have e2 : j.length - (j.length - 1024) + c.length - 1024 -
        (j.length - (j.length - 1024)) = j.length + c.length - 1024 - j.length := by omega
    rw [e1, e2]
  · rw [if_neg h]
    rw [List.drop_append_eq_append_drop]
    simp only [List.length_append, List.length_drop] at h ⊢
    have e2 : j.length + c.length - 1024 - j.length = 0 := by omega
    have e1 : j.length + c.length - 1024 = j.length - 1024 := by omega
    rw [e2, List.drop_zero, e1]

theorem bufferAfter_foldl (chunks : List (List Nat)) :
    ∀ j : List Nat,
      chunks.foldl (fun b c => (readerStep false b c).1) (suffix1024 j) =
        suffix1024 (j ++ chunks.flatten) := by
  induction chunks with
  | nil => intro j; simp
  | cons c cs ih =>
    intro j
    simp only [List.foldl_cons, List.flatten_cons]
    have hr : (readerStep false (suffix1024 j) c).1 = bufferStep (suffix1024 j) c := by
      simp [readerStep]
    rw [hr, bufferStep_suffix, ih (j ++ c), List.append_assoc]

theorem bufferAfter_eq (chunks : List (List Nat)) :
    bufferAfter chunks = suffix1024 chunks.flatten := by
  have h := bufferAfter_foldl chunks []
  simpa [bufferAfter, suffix1024] using h

theorem chain_le_of_le {a b : Nat} {l : List Nat} (hab : a ≤ b)
    (h : List.Chain (fun x y => x ≤ y) b l) : List.Chain (fun x y => x ≤ y) a l := by
  cases h with
  | nil => exact List.Chain.nil
  | cons hxy hc => exact List.Chain.cons (le_trans hab hxy) hc

theorem sep_chain_all : ∀ {l : List Nat} {b : Nat},
    List.Chain (fun x y => x + 100 ≤ y) b l → ∀ x ∈ l, b + 100 ≤ x := by
  intro l
  induction l with
  | nil => intro b _ x hx; cases hx
  | cons c t ih =>
    intro b h x hx
    cases h with
    | cons hbc hc =>
      cases hx with
      | head => exact hbc
      | tail _ hxt => have := ih hc x hxt; omega

theorem sep_chain_pairwise : ∀ {l : List Nat} {a : Nat},
    List.Chain (fun x y => x + 100 ≤ y) a l →
    List.Pairwise (fun x y => x + 100 ≤ y) l := by
  intro l
  induction l with
  | nil => intro a _; exact List.Pairwise.nil
  | cons b t ih =>
    intro a h
    cases h with
    | cons hab hc => exact List.Pairwise.cons (sep_chain_all hc) (ih hc)

theorem dispatch_write_inert (ro hl : Bool) (t : Nat) (rok : Bool) (s : SessState)
    (sz : Nat) (data : List Char) :
    (dispatch ro hl t rok s (InFrame.write sz data)).state = s ∧
    resizesAt t (dispatch ro hl t rok s (InFrame.write sz data)).effs = [] := by
  cases hro : ro
  · cases hd : b64Decode data
    · simp [dispatch, hd, resizesAt]
    · simp [dispatch, hd, resizesAt]
  · simp [dispatch, resizesAt]

theorem dispatch_lastTime_cases (ro : Bool) (t : Nat) (rok : Bool) (s : SessState)
    (f : InFrame) :
    ((dispatch ro true t rok s f).state.lastTime = s.lastTime ∧
      resizesAt t (dispatch ro true t rok s f).effs = []) ∨
    ((dispatch ro true t rok s f).state.lastTime = t ∧ s.lastTime + 100 ≤ t ∧
      ∃ c r, resizesAt t (dispatch ro true t rok s f).effs = [(t, c, r)]) := by
  cases f with
  | write sz data =>
    left
    have h := dispatch_write_inert ro true t rok s sz data
    rw [h.1, h.2]
    exact ⟨rfl, rfl⟩
  | other => left; simp [dispatch, resizesAt]
  | winSize c r =>
    by_cases hv : is_valid_terminal_size c r = true
    · by_cases ht : 100 ≤ t - s.lastTime
      · right
        refine ⟨?_, by omega, c, r, ?_⟩
        · simp [dispatch, hv, process_resize_request, ht, apply_resize]
        · simp [dispatch, hv, process_resize_request, ht, apply_resize,
            applyResizeEff, resizesAt]
      · left
        constructor
        · simp [dispatch, hv, process_resize_request, ht]
        · simp [dispatch, hv, process_resize_request, ht, resizesAt]
    · left
      constructor
      · simp [dispatch, hv]
      · simp [dispatch, hv, resizesAt]

theorem tick_lastTime_cases (t : Nat) (rok : Bool) (s : SessState) :
    ((pending_resize_tick t rok s).1.lastTime = s.lastTime ∧
      resizesAt t (pending_resize_tick t rok s).2 = []) ∨
    ((pending_resize_tick t rok s).1.lastTime = t ∧ s.lastTime + 100 ≤ t ∧
      ∃ c r, resizesAt t (pending_resize_tick t rok s).2 = [(t, c, r)]) := by
  cases hp : s.pending with
  | none => left; simp [pending_resize_tick, hp, resizesAt]
  | some v =>
    obtain ⟨c, r⟩ := v
    by_cases ht : 100 ≤ t - s.lastTime
    · right
      refine ⟨?_, by omega, c, r, ?_⟩
      · simp [pending_resize_tick, hp, ht, apply_resize]
      · simp [pending_resize_tick, hp, ht, apply_resize, applyResizeEff, resizesAt]
    · left
      simp [pending_resize_tick, hp, ht, resizesAt]

theorem runS_sep (ro : Bool) (rok : Bool) :
    ∀ (es : List SEvent) (st : FullState),
      List.Chain (fun x y => x ≤ y) st.sess.lastTime (seTimes es) →
      List.Chain (fun x y => x + 100 ≤ y) st.sess.lastTime
        ((clientApplies (runS ro true rok st es).2).map (fun a => a.1)) := by
  intro es
  induction es with
  | nil =>
    intro st _
    simp only [runS, clientApplies, List.map_nil]
    exact List.Chain.nil
  | cons e es ih =>
    intro st h
    cases e with
    | poll sz =>
      have hse : seTimes (SEvent.poll sz :: es) = seTimes es := by
        simp [seTimes, seTime]
      rw [hse] at h
      have hstep : sysStep ro true rok st (SEvent.poll sz) = (st, []) := by
        simp [sysStep]
      simp only [runS, hstep, clientApplies]
      exact ih st h
    | inbound t f =>
      have hse : seTimes (SEvent.inbound t f :: es) = t :: seTimes es := by
        simp [seTimes, seTime]
      rw [hse] at h
      cases h with
      | cons hle hc =>
        simp only [runS, sysStep, clientApplies]
        rcases dispatch_lastTime_cases ro t rok st.sess f with
          ⟨hlt, hres⟩ | ⟨hlt, hsep, c, r, hres⟩
        · rw [hres]
          simp only [List.nil_append]
          have ihc := ih { st with sess := (dispatch ro true t rok st.sess f).state }
            (by rw [hlt]; exact chain_le_of_le hle hc)
          rw [hlt] at ihc
          exact ihc
        · rw [hres]
          simp only [List.cons_append, List.nil_append, List.map_cons]
          refine List.Chain.cons hsep ?_
          have ihc := ih { st with sess := (dispatch ro true t rok st.sess f).state }
            (by rw [hlt]; exact hc)
          rw [hlt] at ihc
          exact ihc
    | tick t =>
      have hse : seTimes (SEvent.tick t :: es) = t :: seTimes es := by
        simp [seTimes, seTime]
      rw [hse] at h
      cases h with
      | cons hle hc =>
        have hstep : sysStep ro true rok st (SEvent.tick t) =
            ({ st with sess := (pending_resize_tick t rok st.sess).1 },
              (pending_resize_tick t rok st.sess).2) := by
          simp [sysStep]
        simp only [runS, hstep, clientApplies]
        rcases tick_lastTime_cases t rok st.sess with
          ⟨hlt, hres⟩ | ⟨hlt, hsep, c, r, hres⟩
        · rw [hres]
          simp only [List.nil_append]
          have ihc := ih { st with sess := (pending_resize_tick t rok st.sess).1 }
            (by rw [hlt]; exact chain_le_of_le hle hc)
          rw [hlt] at ihc
          exact ihc
        · rw [hres]
          simp only [List.cons_append, List.nil_append, List.map_cons]
          refine List.Chain.cons hsep ?_
          have ihc := ih { st with sess := (pending_resize_tick t rok st.sess).1 }
            (by rw [hlt]; exact hc)
          rw [hlt] at ihc
          exact ihc

/-- Invariant: the pending slot only ever holds a validated size. -/
def pendingValidS (s : SessState) : Prop :=
  ∀ c r, s.pending = some (c, r) → is_valid_terminal_size c r = true

theorem dispatch_valid (ro hl : Bool) (t : Nat) (rok : Bool) (s : SessState)
    (f : InFrame) (hp : pendingValidS s) :
    pendingValidS (dispatch ro hl t rok s f).state ∧
    (∀ c r b, Eff.ptyResizeCall c r b ∈ (dispatch ro hl t rok s f).effs →
      is_valid_terminal_size c r = true) := by
  cases f with
  | write sz data =>
    have h := (dispatch_write_inert ro hl t rok s sz data).1
    rw [h]
    refine ⟨hp, ?_⟩
    intro c r b hmem
    cases hro : ro
    · cases hd : b64Decode data
      · simp [dispatch, hro, hd] at hmem
      · simp [dispatch, hro, hd] at hmem
    · simp [dispatch, hro] at hmem
  | other =>
    refine ⟨hp, ?_⟩
    intro c r b hmem
    simp [dispatch] at hmem
  | winSize c0 r0 =>
    cases hhl : hl
    · exact ⟨by simpa [dispatch] using hp, by intro c r b hmem; simp [dispatch] at hmem⟩
    · by_cases hv : is_valid_terminal_size c0 r0 = true
      · by_cases ht : 100 ≤ t - s.lastTime
        · constructor
          · intro c r hpend
            simp [dispatch, hv, process_resize_request, ht, apply_resize] at hpend
            exact hp c r hpend
          · intro c r b hmem
            simp [dispatch, hv, process_resize_request, ht, apply_resize,
              applyResizeEff] at hmem
            rcases hmem with ⟨hc, hr, _⟩
            subst hc; subst hr
            exact hv
        · constructor
          · intro c r hpend
            simp [dispatch, hv, process_resize_request, ht] at hpend
            obtain ⟨h1, h2⟩ := hpend
            subst h1; subst h2
            exact hv
          · intro c r b hmem
            simp [dispatch, hv, process_resize_request, ht] at hmem
      · refine ⟨?_, ?_⟩
        · intro c r hpend
          simp [dispatch, hv] at hpend
          exact hp c r hpend
        · intro c r b hmem
          simp [dispatch, hv] at hmem

theorem tick_valid (t : Nat) (rok : Bool) (s : SessState) (hp : pendingValidS s) :
    pendingValidS (pending_resize_tick t rok s).1 ∧
    (∀ c r b, Eff.ptyResizeCall c r b ∈ (pending_resize_tick t rok s).2 →
      is_valid_terminal_size c r = true) := by
  cases hpend : s.pending with
  | none =>
    constructor
    · intro c r h
      simp [pending_resize_tick, hpend] at h
    · intro c r b hmem
      simp [pending_resize_tick, hpend] at hmem
  | some v =>
    obtain ⟨c0, r0⟩ := v
    have hv : is_valid_terminal_size c0 r0 = true := hp c0 r0 hpend
    by_cases ht : 100 ≤ t - s.lastTime
    · constructor
      · intro c r h
        simp [pending_resize_tick, hpend, ht, apply_resize] at h
      · intro c r b hmem
        simp [pending_resize_tick, hpend, ht, apply_resize, applyResizeEff] at hmem
        rcases hmem with ⟨hc, hr, _⟩
        subst hc; subst hr
        exact hv
    · constructor
      · intro c r h
        simp [pending_resize_tick, hpend, ht] at h
        obtain ⟨h1, h2⟩ := h
        subst h1; subst h2
        exact hv
      · intro c r b hmem
        simp [pending_resize_tick, hpend, ht] at hmem

theorem poller_valid (rok : Bool) (st : FullState) (sz : Nat × Nat) :
    (pollerStep rok st sz).1.sess.pending = st.sess.pending ∧
    (∀ c r b, Eff.ptyResizeCall c r b ∈ (pollerStep rok st sz).2 →
      is_valid_terminal_size c r = true) := by
  by_cases he : sz = st.pollLast
  · simp [pollerStep, he]
  · by_cases hv : is_valid_terminal_size sz.1 sz.2 = true
    · constructor
      · simp [pollerStep, he, hv]
      · intro c r b hmem
        simp [pollerStep, he, hv] at hmem
        rcases hmem with ⟨hc, hr, _⟩
        subst hc; subst hr
        exact hv
    · simp [pollerStep, he, hv]

theorem runS_resizes_valid (ro hl : Bool) (rok : Bool) :
    ∀ (es : List SEvent) (st : FullState), pendingValidS st.sess →
      ∀ pr ∈ (runS ro hl rok st es).2, ∀ c r b,
        Eff.ptyResizeCall c r b ∈ pr.2 → is_valid_terminal_size c r = true := by
  intro es
  induction es with
  | nil =>
    intro st _ pr hpr
    simp [runS] at hpr
  | cons e es ih =>
    intro st hp pr hpr
    simp only [runS, List.mem_cons] at hpr
    have hstep : pendingValidS (sysStep ro hl rok st e).1.sess ∧
        (∀ c r b, Eff.ptyResizeCall c r b ∈ (sysStep ro hl rok st e).2 →
          is_valid_terminal_size c r = true) := by
      cases e with
      | inbound t f =>
        have h := dispatch_valid ro hl t rok st.sess f hp
        exact ⟨h.1, h.2⟩
      | tick t =>
        cases hhl : hl
        · have he : sysStep ro false rok st (SEvent.tick t) = (st, []) := by
            simp [sysStep]
          rw [he]
          exact ⟨hp, by intro c r b hm; simp at hm⟩
        · have he : sysStep ro true rok st (SEvent.tick t) =
              ({ st with sess := (pending_resize_tick t rok st.sess).1 },
                (pending_resize_tick t rok st.sess).2) := by
            simp [sysStep]
          rw [he]
          have h := tick_valid t rok st.sess hp
          exact ⟨h.1, h.2⟩
      | poll sz =>
        cases hhl : hl
        · have he : sysStep ro false rok st (SEvent.poll sz) = pollerStep rok st sz := by
            simp [sysStep]
          rw [he]
          have h := poller_valid rok st sz
          constructor
          · intro c r hpend
            exact hp c r (h.1 ▸ hpend)
          · exact h.2
        · have he : sysStep ro true rok st (SEvent.poll sz) = (st, []) := by
            simp [sysStep]
          rw [he]
          exact ⟨hp, by intro c r b hm; simp at hm⟩
    rcases hpr with hhead | htail
    · intro c r b hmem
      rw [hhead] at hmem
      exact hstep.2 c r b hmem
    · exact ih (sysStep ro hl rok st e).1 hstep.1 pr htail

theorem attachActions_allOk (inp : AttachInput) (ok : Nat → Bool)
    (h : ∀ i, ok i = true) :
    attachActions inp ok =
      (ClientAct.subscribe :: ClientAct.send (OutFrame.winSize inp.cols inp.rows) ::
        ClientAct.send (OutFrame.readOnly inp.readonly) ::
        ClientAct.send (OutFrame.headless inp.headless) ::
        (if inp.buffer.isEmpty then []
         else [ClientAct.send (OutFrame.write inp.buffer.length (b64Encode inp.buffer))]),
       []) := by
  unfold attachActions
  rw [h 0, h 1, h 2, h 3]
  by_cases hb : inp.buffer.isEmpty
  · have hbe : inp.buffer = [] := List.isEmpty_iff.mp hb
    simp [hb, hbe]
  · simp [hb]

/-- C1 counterexample: a raw PTY chunk consisting of the ASCII bytes
`WINSIZE:x` is forwarded by the sender task as a control text frame with the
marker stripped, not wrapped in a `Write` frame, so raw PTY bytes beginning
with `WINSIZE:` are confused with control frames. -/
theorem claim_C1_counterexample :
    forwardChunk (winsizeMarker ++ [120]) = OutFrame.controlText [120] ∧
    forwardChunk (winsizeMarker ++ [120]) ≠
      OutFrame.write (winsizeMarker ++ [120]).length
        (b64Encode (winsizeMarker ++ [120])) := by
  decide

/-- C1 (amended): a raw PTY chunk that is not a valid UTF-8 sequence starting
with the ASCII marker `WINSIZE:` is wrapped in a `Write` frame whose decoded
payload equals the chunk; a chunk that is valid UTF-8 and starts with the
marker is instead forwarded verbatim as a control frame with the marker
stripped. -/
theorem claim_C1 (data : List Nat) (hb : ∀ x ∈ data, x < 256) :
    (¬(isValidUtf8 data = true ∧ winsizeMarker.isPrefixOf data = true) →
      forwardChunk data = OutFrame.write data.length (b64Encode data) ∧
      b64Decode (b64Encode data) = some data) ∧
    ((isValidUtf8 data = true ∧ winsizeMarker.isPrefixOf data = true) →
      forwardChunk data = OutFrame.controlText (data.drop winsizeMarker.length)) := by
  constructor
  · intro hn
    refine ⟨?_, b64_roundtrip data hb⟩
    unfold forwardChunk
    rw [if_neg (by simpa [Bool.and_eq_true] using hn)]
  · intro hp
    unfold forwardChunk
    rw [if_pos (by simp [Bool.and_eq_true, hp.1, hp.2])]

theorem claim_C1_witness :
    forwardChunk [104, 105] =
      OutFrame.write ([104, 105] : List Nat).length (b64Encode [104, 105]) ∧
    b64Decode (b64Encode [104, 105]) = some [104, 105] :=
  (claim_C1 [104, 105] (by decide)).1 (by decide)

/-- C4: with every send succeeding, the attach handshake first subscribes to
the broadcast channel and then delivers, in this exact order and with nothing
else: `WinSize` with the current size, `ReadOnly`, `Headless`, and, only when
the replay buffer is non-empty, one `Write` whose payload is the base64 of
the entire buffer contents (which decodes back to exactly the buffer). -/
theorem claim_C4 (inp : AttachInput) (ok : Nat → Bool)
    (hok : ∀ i, ok i = true) (hb : ∀ x ∈ inp.buffer, x < 256) :
    attachActions inp ok =
      (ClientAct.subscribe :: ClientAct.send (OutFrame.winSize inp.cols inp.rows) ::
        ClientAct.send (OutFrame.readOnly inp.readonly) ::
        ClientAct.send (OutFrame.headless inp.headless) ::
        (if inp.buffer.isEmpty then []
         else [ClientAct.send (OutFrame.write inp.buffer.length (b64Encode inp.buffer))]),
       []) ∧
    b64Decode (b64Encode inp.buffer) = some inp.buffer :=
  ⟨attachActions_allOk inp ok hok, b64_roundtrip inp.buffer hb⟩

theorem claim_C4_witness :
    attachActions ⟨80, 25, false, false, [1]⟩ (fun _ => true) =
      (ClientAct.subscribe :: ClientAct.send (OutFrame.winSize 80 25) ::
        ClientAct.send (OutFrame.readOnly false) ::
        ClientAct.send (OutFrame.headless false) ::
        (if ([1] : List Nat).isEmpty then []
         else [ClientAct.send (OutFrame.write ([1] : List Nat).length (b64Encode [1]))]),
       []) ∧
    b64Decode (b64Encode [1]) = some [1] :=
  claim_C4 ⟨80, 25, false, false, [1]⟩ (fun _ => true) (fun _ => rfl) (by decide)

/-- C5: while the session is read-only, an inbound `Write` frame is dropped
with no effect at all: no bytes reach the PTY writer, the session state is
unchanged, and the receiver loop (hence the connection) continues. -/
theorem claim_C5 (ro hl : Bool) (t : Nat) (rok : Bool) (s : SessState)
    (sz : Nat) (data : List Char) (h : ro = true) :
    dispatch ro hl t rok s (InFrame.write sz data) = ⟨s, [], false⟩ := by
  subst h
  simp [dispatch]

theorem claim_C5_witness :
    dispatch true false 0 true ⟨(80, 25), 0, none⟩ (InFrame.write 1 ['a']) =
      ⟨⟨(80, 25), 0, none⟩, [], false⟩ :=
  claim_C5 true false 0 true ⟨(80, 25), 0, none⟩ 1 ['a'] rfl

/-- C6: a `WinSize` frame received while the session is not headless is
dropped with no side effects: current size, pending slot, last-resize time
and the PTY are untouched, nothing is broadcast, and the connection stays
open. -/
theorem claim_C6 (ro hl : Bool) (t : Nat) (rok : Bool) (s : SessState)
    (c r : Nat) (h : hl = false) :
    dispatch ro hl t rok s (InFrame.winSize c r) = ⟨s, [], false⟩ := by
  subst h
  simp [dispatch]

theorem claim_C6_witness :
    dispatch false false 0 true ⟨(80, 25), 0, none⟩ (InFrame.winSize 100 30) =
      ⟨⟨(80, 25), 0, none⟩, [], false⟩ :=
  claim_C6 false false 0 true ⟨(80, 25), 0, none⟩ 100 30 rfl

/-- C8: `apply_resize` updates the stored current size first, then calls the
PTY resize, then publishes the WinSize announcement on the broadcast channel,
in exactly that order; when the PTY resize fails (`rok = false`) the updated
current size and the published announcement still take effect. -/
theorem claim_C8 (c r : Nat) (rok : Bool) (s : SessState) :
    apply_resize c r rok s =
      ({ cur := (c, r), lastTime := s.lastTime, pending := s.pending },
       [Eff.setCurrent c r, Eff.ptyResizeCall c r rok,
        Eff.publish (winsizeAnnouncement c r)]) := rfl

/-- C9: in a non-read-only session, an accepted `Write` frame has its full
base64-decoded payload written to the PTY; the `Size` field is never
consulted (it does not occur in the result), so a frame whose `Size`
disagrees with its payload is still written in full. -/
theorem claim_C9 (ro hl : Bool) (t : Nat) (rok : Bool) (s : SessState)
    (sz : Nat) (data : List Char) (p : List Nat)
    (hro : ro = false) (hd : b64Decode data = some p) :
    dispatch ro hl t rok s (InFrame.write sz data) = ⟨s, [Eff.ptyWrite p], false⟩ := by
  subst hro
  simp [dispatch, hd]

theorem claim_C9_witness :
    dispatch false false 0 true ⟨(80, 25), 0, none⟩
      (InFrame.write 999 ['a', 'G', 'k', '=']) =
      ⟨⟨(80, 25), 0, none⟩, [Eff.ptyWrite [104, 105]], false⟩ :=
  claim_C9 false false 0 true ⟨(80, 25), 0, none⟩ 999 ['a', 'G', 'k', '=']
    [104, 105] rfl (by decide)

/-- C7: a size is valid exactly when `10 ≤ cols ≤ 1000` and `5 ≤ rows ≤ 1000`
and both are non-zero; an invalid client `WinSize` is rejected with no side
effects; an invalid polled host size is skipped with no side effects; and
along any run from a state whose pending slot holds only validated sizes,
every PTY resize call carries a valid size. -/
theorem claim_C7 :
    (∀ c r, is_valid_terminal_size c r = true ↔
      (10 ≤ c ∧ c ≤ 1000 ∧ 5 ≤ r ∧ r ≤ 1000 ∧ c ≠ 0 ∧ r ≠ 0)) ∧
    (∀ ro hl t rok s c r, is_valid_terminal_size c r = false →
      dispatch ro hl t rok s (InFrame.winSize c r) = ⟨s, [], false⟩) ∧
    (∀ rok st sz, is_valid_terminal_size sz.1 sz.2 = false →
      pollerStep rok st sz = (st, [])) ∧
    (∀ ro hl rok es st, pendingValidS st.sess →
      ∀ pr ∈ (runS ro hl rok st es).2, ∀ c r b,
        Eff.ptyResizeCall c r b ∈ pr.2 → is_valid_terminal_size c r = true) := by
  refine ⟨?_, ?_, ?_, runS_resizes_valid⟩
  · intro c r
    unfold is_valid_terminal_size
    split
    · simp only [Bool.false_eq_true, false_iff]
      omega
    · simp only [Bool.and_eq_true, decide_eq_true_eq]
      constructor
      · intro h
        omega
      · intro h
        omega
  · intro ro hl t rok s c r h
    cases hl
    · simp [dispatch]
    · simp [dispatch, h]
  · intro rok st sz h
    by_cases he : sz = st.pollLast
    · simp [pollerStep, he]
    · simp [pollerStep, he, h]

theorem claim_C7_witness :
    (is_valid_terminal_size 5000 30 = true ↔
      (10 ≤ 5000 ∧ 5000 ≤ 1000 ∧ 5 ≤ 30 ∧ 30 ≤ 1000 ∧ 5000 ≠ 0 ∧ 30 ≠ 0)) ∧
    dispatch false true 0 true ⟨(80, 25), 0, none⟩ (InFrame.winSize 5000 30) =
      ⟨⟨(80, 25), 0, none⟩, [], false⟩ ∧
    pollerStep true ⟨⟨(80, 25), 0, none⟩, (80, 25)⟩ (5000, 30) =
      (⟨⟨(80, 25), 0, none⟩, (80, 25)⟩, []) :=
  ⟨claim_C7.1 5000 30,
   claim_C7.2.1 false true 0 true ⟨(80, 25), 0, none⟩ 5000 30 (by decide),
   claim_C7.2.2.1 true ⟨⟨(80, 25), 0, none⟩, (80, 25)⟩ (5000, 30) (by decide)⟩

/-- C10: if the replay-buffer `Write` of the attach handshake fails to send,
the buffer is left unchanged; it becomes empty exactly when all four sends
(including the replay one) succeed; and a subsequent attach with successful
sends still delivers a `Write` carrying the original buffer. -/
theorem claim_C10 (inp : AttachInput) (ok ok' : Nat → Bool)
    (hok' : ∀ i, ok' i = true)
    (h0 : ok 0 = true) (h1 : ok 1 = true) (h2 : ok 2 = true) (h3 : ok 3 = false)
    (hne : inp.buffer ≠ []) :
    (attachActions inp ok).2 = inp.buffer ∧
    (∀ ok₂ : Nat → Bool, (attachActions inp ok₂).2 = [] ↔
      (ok₂ 0 = true ∧ ok₂ 1 = true ∧ ok₂ 2 = true ∧ ok₂ 3 = true)) ∧
    ClientAct.send (OutFrame.write inp.buffer.length (b64Encode inp.buffer)) ∈
      (attachActions { inp with buffer := (attachActions inp ok).2 } ok').1 := by
  have hbe : inp.buffer.isEmpty = false := by
    cases hcase : inp.buffer
    · exact absurd hcase hne
    · simp
  have hA : (attachActions inp ok).2 = inp.buffer := by
    simp [attachActions, h0, h1, h2, h3, hbe]
  refine ⟨hA, ?_, ?_⟩
  · intro ok₂
    constructor
    · intro hempty
      cases h0' : ok₂ 0 <;> cases h1' : ok₂ 1 <;> cases h2' : ok₂ 2 <;>
        cases h3' : ok₂ 3 <;>
        simp [attachActions, h0', h1', h2', h3', hbe] at hempty ⊢ <;>
        exact absurd hempty hne
    · intro hall
      simp [attachActions, hall.1, hall.2.1, hall.2.2.1, hall.2.2.2, hbe]
  · rw [hA]
    have heta : { inp with buffer := inp.buffer } = inp := rfl
    rw [heta, attachActions_allOk inp ok' hok']
    simp [hbe]

theorem claim_C10_witness :
    (attachActions ⟨80, 25, false, false, [1]⟩ (fun i => decide (i < 3))).2 = [1] ∧
    (∀ ok₂ : Nat → Bool,
      (attachActions ⟨80, 25, false, false, [1]⟩ ok₂).2 = [] ↔
      (ok₂ 0 = true ∧ ok₂ 1 = true ∧ ok₂ 2 = true ∧ ok₂ 3 = true)) ∧
    ClientAct.send (OutFrame.write ([1] : List Nat).length (b64Encode [1])) ∈
      (attachActions
        ⟨80, 25, false, false,
          (attachActions ⟨80, 25, false, false, [1]⟩ (fun i => decide (i < 3))).2⟩
        (fun _ => true)).1 :=
  claim_C10 ⟨80, 25, false, false, [1]⟩ (fun i => decide (i < 3)) (fun _ => true)
    (fun _ => rfl) (by decide) (by decide) (by decide) (by decide) (by decide)

/-- C2: after the reader has buffered `chunks` with zero subscribers, the
replay buffer is at most 1024 bytes long, equals the last `min(|B|, 1024)`
bytes of the concatenated output `B`, and is a contiguous suffix of `B`; and
the first attaching client (all sends succeeding, buffer non-empty) receives
exactly one replay `Write` whose payload decodes to that suffix, after the
three handshake frames and before any live chunk. -/
theorem claim_C2 (chunks live : List (List Nat)) (c r : Nat) (ro hl : Bool)
    (ok : Nat → Bool) (hb : ∀ x ∈ chunks.flatten, x < 256)
    (hne : bufferAfter chunks ≠ []) (hok : ∀ i, ok i = true) :
    (bufferAfter chunks).length ≤ 1024 ∧
    bufferAfter chunks = chunks.flatten.drop (chunks.flatten.length - 1024) ∧
    bufferAfter chunks <:+ chunks.flatten ∧
    clientStream ⟨c, r, ro, hl, bufferAfter chunks⟩ ok live =
      ClientAct.subscribe :: ClientAct.send (OutFrame.winSize c r) ::
      ClientAct.send (OutFrame.readOnly ro) :: ClientAct.send (OutFrame.headless hl) ::
      ClientAct.send (OutFrame.write (bufferAfter chunks).length
        (b64Encode (bufferAfter chunks))) ::
      live.map (fun ch => ClientAct.send (forwardChunk ch)) ∧
    b64Decode (b64Encode (bufferAfter chunks)) = some (bufferAfter chunks) := by
  have heq := bufferAfter_eq chunks
  have hsfx : bufferAfter chunks <:+ chunks.flatten := by
    rw [heq]
    exact List.drop_suffix _ _
  have hbe : (bufferAfter chunks).isEmpty = false := by
    cases hcase : bufferAfter chunks
    · exact absurd hcase hne
    · simp
  refine ⟨?_, heq, hsfx, ?_, ?_⟩
  · rw [heq]
    unfold suffix1024
    rw [List.length_drop]
    omega
  · unfold clientStream
    rw [attachActions_allOk ⟨c, r, ro, hl, bufferAfter chunks⟩ ok hok]
    simp [hbe]
  · exact b64_roundtrip _ (fun x hx => hb x (hsfx.subset hx))

theorem claim_C2_witness :
    (bufferAfter [[104, 105]]).length ≤ 1024 ∧
    bufferAfter [[104, 105]] =
      ([[104, 105]] : List (List Nat)).flatten.drop
        (([[104, 105]] : List (List Nat)).flatten.length - 1024) ∧
    bufferAfter [[104, 105]] <:+ ([[104, 105]] : List (List Nat)).flatten ∧
    clientStream ⟨80, 25, false, false, bufferAfter [[104, 105]]⟩ (fun _ => true) [] =
      ClientAct.subscribe :: ClientAct.send (OutFrame.winSize 80 25) ::
      ClientAct.send (OutFrame.readOnly false) :: ClientAct.send (OutFrame.headless false) ::
      ClientAct.send (OutFrame.write (bufferAfter [[104, 105]]).length
        (b64Encode (bufferAfter [[104, 105]]))) ::
      List.map (fun ch => ClientAct.send (forwardChunk ch)) [] ∧
    b64Decode (b64Encode (bufferAfter [[104, 105]])) = some (bufferAfter [[104, 105]]) :=
  claim_C2 [[104, 105]] [] 80 25 false false (fun _ => true) (by decide) (by decide)
    (fun _ => rfl)

/-- C3: along any headless run with nondecreasing event times, the
client-initiated PTY resizes are pairwise at least 100 ms apart (so any
half-open 100 ms window holds at most one); a valid request after at least
100 ms is applied immediately with the timestamp updated; an earlier one
only overwrites the single pending slot; a 50 ms tick applies the pending
value once 100 ms have elapsed, updating the timestamp and clearing the
slot; and whatever request is pending after the run (the most recent
suppressed one) is applied by the first sufficiently late tick. -/
theorem claim_C3 (ro : Bool) (rok : Bool) (st : FullState) (es : List SEvent)
    (hchain : List.Chain (fun x y => x ≤ y) st.sess.lastTime (seTimes es)) :
    List.Pairwise (fun a b => a.1 + 100 ≤ b.1)
      (clientApplies (runS ro true rok st es).2) ∧
    (∀ t c r s, 100 ≤ t - SessState.lastTime s →
      process_resize_request t c r rok s =
        ({ cur := (c, r), lastTime := t, pending := s.pending },
         applyResizeEff c r rok)) ∧
    (∀ t c r s, t - SessState.lastTime s < 100 →
      process_resize_request t c r rok s = ({ s with pending := some (c, r) }, [])) ∧
    (∀ t c r s, SessState.pending s = some (c, r) → 100 ≤ t - SessState.lastTime s →
      pending_resize_tick t rok s =
        ({ cur := (c, r), lastTime := t, pending := none }, applyResizeEff c r rok)) ∧
    (∀ t s, SessState.pending s = none → pending_resize_tick t rok s = (s, [])) ∧
    (∀ c r, (runS ro true rok st es).1.sess.pending = some (c, r) →
      ∀ t, 100 ≤ t - (runS ro true rok st es).1.sess.lastTime →
        pending_resize_tick t rok (runS ro true rok st es).1.sess =
          ({ cur := (c, r), lastTime := t, pending := none },
           applyResizeEff c r rok)) := by
  refine ⟨?_, ?_, ?_, ?_, ?_, ?_⟩
  · exact List.pairwise_map.mp (sep_chain_pairwise (runS_sep ro rok es st hchain))
  · intro t c r s ht
    simp [process_resize_request, ht, apply_resize]
  · intro t c r s ht
    have hn : ¬(100 ≤ t - s.lastTime) := by omega
    simp [process_resize_request, hn]
  · intro t c r s hp ht
    simp [pending_resize_tick, hp, ht, apply_resize]
  · intro t s hp
    simp [pending_resize_tick, hp]
  · intro c r hp t ht
    simp [pending_resize_tick, hp, ht, apply_resize]

theorem claim_C3_witness :
    List.Pairwise (fun a b => a.1 + 100 ≤ b.1)
      (clientApplies
        (runS false true true ⟨⟨(80, 25), 0, none⟩, (80, 25)⟩
          [SEvent.inbound 150 (InFrame.winSize 100 30),
           SEvent.inbound 170 (InFrame.winSize 111 30),
           SEvent.tick 300]).2) ∧
    pending_resize_tick 300 true ⟨(100, 30), 150, some (111, 30)⟩ =
      ({ cur := (111, 30), lastTime := 300, pending := none },
       applyResizeEff 111 30 true) := by
  have h := claim_C3 false true ⟨⟨(80, 25), 0, none⟩, (80, 25)⟩
    [SEvent.inbound 150 (InFrame.winSize 100 30),
     SEvent.inbound 170 (InFrame.winSize 111 30),
     SEvent.tick 300]
    (by
      show List.Chain (fun x y => x ≤ y) 0 [150, 170, 300]
      exact List.Chain.cons (by omega)
        (List.Chain.cons (by omega) (List.Chain.cons (by omega) List.Chain.nil)))
  exact ⟨h.1, h.2.2.2.1 300 111 30 ⟨(100, 30), 150, some (111, 30)⟩ rfl (by decide)⟩
